import Mathlib

/-!
Verification of the MongoDB MCP server's command/connection core
(`db-commands.ts`, `db-command-types.ts` and the `run_command` request
handler).  JavaScript values flowing through the command pipeline are
modelled by `JsValue`; `JSON.stringify` (compact and 2-space pretty
forms), Node's POSIX `path` functions, UTF-8 encoding and the temp-file
system are embedded as executable Lean functions, and the source
functions `validateCommand`, `executeCommand`, `writeResultToTempFile`,
`readFileChunk`, `sanitizeFilePath` and `connectToMongoDB` are
translated on top of them.
-/

/-- A JSON-representable JavaScript value (the MCP request/response
payloads are JSON, so `undefined`, functions and symbols never occur in
the option bags; JS numbers are modelled by integers, which covers every
value the claims exercise).  Objects are insertion-ordered key/value
lists, mirroring JS object semantics; callers never produce duplicate
keys (a JS object literal cannot hold two identical keys). -/
inductive JsValue where
  | null : JsValue
  | bool (b : Bool) : JsValue
  | num (n : Int) : JsValue
  | str (s : String) : JsValue
  | arr (elems : List JsValue) : JsValue
  | obj (fields : List (String × JsValue)) : JsValue

/-- JavaScript truthiness (`!!v` / `if (v)`): `null`, `false`, `0` and
`""` are falsy; every other value, including empty arrays and objects,
is truthy. -/
def jsTruthy : JsValue → Bool
  | .null => false
  | .bool b => b
  | .num n => n != 0
  | .str s => s != ""
  | .arr _ => true
  | .obj _ => true

/-- Lower-case hexadecimal digit, used by the JSON string escaper. -/
def hexDigit (n : Nat) : Char :=
  if n < 10 then Char.ofNat (48 + n) else Char.ofNat (87 + n)

/-- `JSON.stringify` escaping of a single character inside a string
literal. -/
def escapeChar (c : Char) : List Char :=
  if c = '"' then ['\\', '"']
  else if c = '\\' then ['\\', '\\']
  else if c = '\x08' then ['\\', 'b']
  else if c = '\x0c' then ['\\', 'f']
  else if c = '\n' then ['\\', 'n']
  else if c = '\r' then ['\\', 'r']
  else if c = '\t' then ['\\', 't']
  else if c.toNat < 0x20 then
    ['\\', 'u', '0', '0', hexDigit (c.toNat / 16), hexDigit (c.toNat % 16)]
  else [c]

/-- Concatenation of a list of lists (explicit so that its defining
equations are under our control). -/
def catLists : List (List α) → List α
  | [] => []
  | l :: ls => l ++ catLists ls

/-- A JSON string literal: `"` + escaped characters + `"`. -/
def quoteString (s : String) : String :=
  "\"" ++ String.mk (catLists (s.toList.map escapeChar)) ++ "\""

mutual
/-- Compact `JSON.stringify` (no spaces), as used by `validateCommand`
for the dangerous-operator scan and by `executeCommand` to measure the
result size. -/
def stringify : JsValue → String
  | .null => "null"
  | .bool b => if b then "true" else "false"
  | .num n => toString n
  | .str s => quoteString s
  | .arr l => "[" ++ stringifyArr l ++ "]"
  | .obj l => "\x7b" ++ stringifyObj l ++ "\x7d"

/-- Comma-separated compact serialization of array elements. -/
def stringifyArr : List JsValue → String
  | [] => ""
  | [v] => stringify v
  | v :: v' :: rest => stringify v ++ "," ++ stringifyArr (v' :: rest)

/-- Comma-separated compact serialization of object entries. -/
def stringifyObj : List (String × JsValue) → String
  | [] => ""
  | [(k, v)] => quoteString k ++ ":" ++ stringify v
  | (k, v) :: p :: rest =>
      quoteString k ++ ":" ++ stringify v ++ "," ++ stringifyObj (p :: rest)
end

example : stringify (.obj [("ping", .num 1), ("f", .obj [("$where", .str "x")])]) =
    "\x7b\"ping\":1,\"f\":\x7b\"$where\":\"x\"\x7d\x7d" := by rfl

/-- `n` spaces, the indentation emitted by `JSON.stringify(_, null, 2)`. -/
def indentOf (n : Nat) : String :=
  String.mk (List.replicate n ' ')

mutual
/-- `JSON.stringify(data, null, 2)`: the pretty-printed serialization
that `writeResultToTempFile` writes to the temp file.  `d` is the
current nesting depth. -/
def prettyV : Nat → JsValue → String
  | _, .null => "null"
  | _, .bool b => if b then "true" else "false"
  | _, .num n => toString n
  | _, .str s => quoteString s
  | _, .arr [] => "[]"
  | d, .arr (v :: rest) =>
      "[\n" ++ prettyArr (d + 1) (v :: rest) ++ "\n" ++ indentOf (2 * d) ++ "]"
  | _, .obj [] => "\x7b\x7d"
  | d, .obj (p :: rest) =>
      "\x7b\n" ++ prettyObj (d + 1) (p :: rest) ++ "\n" ++ indentOf (2 * d) ++ "\x7d"

/-- Pretty-printed array items, one per line, comma-separated. -/
def prettyArr : Nat → List JsValue → String
  | _, [] => ""
  | d, [v] => indentOf (2 * d) ++ prettyV d v
  | d, v :: v' :: rest =>
      indentOf (2 * d) ++ prettyV d v ++ ",\n" ++ prettyArr d (v' :: rest)

/-- Pretty-printed object entries, one per line, comma-separated, with
`": "` between key and value. -/
def prettyObj : Nat → List (String × JsValue) → String
  | _, [] => ""
  | d, [(k, v)] => indentOf (2 * d) ++ quoteString k ++ ": " ++ prettyV d v
  | d, (k, v) :: p :: rest =>
      indentOf (2 * d) ++ quoteString k ++ ": " ++ prettyV d v ++ ",\n" ++
        prettyObj d (p :: rest)
end

/-- `JSON.stringify(data, null, 2)` at top level. -/
def stringifyPretty (data : JsValue) : String :=
  prettyV 0 data

example : stringifyPretty (.obj [("a", .num 1), ("b", .arr [.num 1, .num 2])]) =
    "\x7b\n  \"a\": 1,\n  \"b\": [\n    1,\n    2\n  ]\n\x7d" := by rfl

/-- JS `String.prototype.length`: the number of UTF-16 code units
(characters above the BMP count twice). -/
def utf16Length (s : String) : Nat :=
  (s.toList.map (fun c => if c.toNat ≥ 0x10000 then 2 else 1)).sum

/-- UTF-8 encoding of one scalar value. -/
def utf8EncodeChar (c : Char) : List UInt8 :=
  let v := c.toNat
  if v < 0x80 then [UInt8.ofNat v]
  else if v < 0x800 then
    [UInt8.ofNat (0xC0 + v / 64), UInt8.ofNat (0x80 + v % 64)]
  else if v < 0x10000 then
    [UInt8.ofNat (0xE0 + v / 4096), UInt8.ofNat (0x80 + v / 64 % 64),
     UInt8.ofNat (0x80 + v % 64)]
  else
    [UInt8.ofNat (0xF0 + v / 262144), UInt8.ofNat (0x80 + v / 4096 % 64),
     UInt8.ofNat (0x80 + v / 64 % 64), UInt8.ofNat (0x80 + v % 64)]

/-- UTF-8 encoding of a string: the byte content Node writes for a JS
string with encoding `'utf8'`, and the unit in which `fs.stat().size`
and `handle.read` offsets are measured. -/
def utf8Bytes (s : String) : List UInt8 :=
  catLists (s.toList.map utf8EncodeChar)

example : (utf8Bytes "ab").length = 2 := by rfl

/-- U+FFFD, the Unicode replacement character. -/
def replChar : Char := '�'

/-- `Buffer.prototype.toString('utf8')` (the WHATWG UTF-8 decoder Node
uses): well-formed sequences decode to their scalar value; each
invalid, overlong, surrogate or truncated maximal subsequence is
replaced by U+FFFD.  This is the lossy boundary `readFileChunk` pushes
each byte window through before returning it to the caller: a
multi-byte character split across two windows decodes to replacement
characters in both. -/
def utf8DecodeChars : List UInt8 → List Char
  | [] => []
  | b :: rest =>
    let v := b.toNat
    if v < 0x80 then Char.ofNat v :: utf8DecodeChars rest
    else if v < 0xC2 then replChar :: utf8DecodeChars rest
    else if v < 0xE0 then
      match rest with
      | [] => [replChar]
      | b2 :: rest2 =>
        if 0x80 ≤ b2.toNat ∧ b2.toNat < 0xC0 then
          Char.ofNat ((v - 0xC0) * 64 + (b2.toNat - 0x80)) :: utf8DecodeChars rest2
        else replChar :: utf8DecodeChars (b2 :: rest2)
    else if v < 0xF0 then
      match rest with
      | [] => [replChar]
      | b2 :: rest2 =>
        if (if v = 0xE0 then 0xA0 else 0x80) ≤ b2.toNat ∧
            b2.toNat < (if v = 0xED then 0xA0 else 0xC0) then
          match rest2 with
          | [] => [replChar]
          | b3 :: rest3 =>
            if 0x80 ≤ b3.toNat ∧ b3.toNat < 0xC0 then
              Char.ofNat ((v - 0xE0) * 4096 + (b2.toNat - 0x80) * 64 +
                (b3.toNat - 0x80)) :: utf8DecodeChars rest3
            else replChar :: utf8DecodeChars (b3 :: rest3)
        else replChar :: utf8DecodeChars (b2 :: rest2)
    else if v < 0xF5 then
      match rest with
      | [] => [replChar]
      | b2 :: rest2 =>
        if (if v = 0xF0 then 0x90 else 0x80) ≤ b2.toNat ∧
            b2.toNat < (if v = 0xF4 then 0x90 else 0xC0) then
          match rest2 with
          | [] => [replChar]
          | b3 :: rest3 =>
            if 0x80 ≤ b3.toNat ∧ b3.toNat < 0xC0 then
              match rest3 with
              | [] => [replChar]
              | b4 :: rest4 =>
                if 0x80 ≤ b4.toNat ∧ b4.toNat < 0xC0 then
                  Char.ofNat ((v - 0xF0) * 262144 + (b2.toNat - 0x80) * 4096 +
                    (b3.toNat - 0x80) * 64 + (b4.toNat - 0x80)) :: utf8DecodeChars rest4
                else replChar :: utf8DecodeChars (b4 :: rest4)
            else replChar :: utf8DecodeChars (b3 :: rest3)
        else replChar :: utf8DecodeChars (b2 :: rest2)
    else replChar :: utf8DecodeChars rest

/-- The JS string a byte window decodes to
(`buffer.subarray(0, bytesRead).toString('utf8')`). -/
def utf8Decode (bytes : List UInt8) : String :=
  String.mk (utf8DecodeChars bytes)

example : utf8Decode (utf8Bytes "héllo") = "héllo" := by rfl
example : utf8Decode [0x22, 0xC3] = "\"�" := by rfl
example : utf8Decode [0xA9, 0x22] = "�\"" := by rfl

/-! ### Node's POSIX `path` functions

`sanitizeFilePath` uses `path.normalize`, `path.basename` and
`path.join` from Node's `path` module (POSIX flavour).  They are
embedded here as character-list functions wrapped in `String`. -/

/-- Split a character list on `'/'` (the segment decomposition both
`path.normalize` and `path.join` work over). -/
def splitOnSlash : List Char → List (List Char)
  | [] => [[]]
  | c :: rest =>
    let r := splitOnSlash rest
    if c = '/' then [] :: r
    else
      match r with
      | s :: ss => (c :: s) :: ss
      | [] => [[c]]

/-- Does the path start with a separator (`path.isAbsolute`)? -/
def startsSlash : List Char → Bool
  | [] => false
  | c :: _ => c == '/'

/-- Does the path end with a separator (Node's `trailingSeparator`
check in `normalize`)? -/
def endsSlash : List Char → Bool
  | [] => false
  | [c] => c == '/'
  | _ :: c :: rest => endsSlash (c :: rest)

/-- The effect of a `".."` segment on the emitted-segment stack: pop
the last real segment; keep accumulating `".."`s on top of `".."`s; at
an empty stack, keep the `".."` for relative paths (`allowAbove`) and
drop it for absolute ones. -/
def popDotDot (allowAbove : Bool) : List (List Char) → List (List Char)
  | [] => if allowAbove then [['.', '.']] else []
  | top :: acctail =>
    if top = ['.', '.'] then ['.', '.'] :: top :: acctail else acctail

/-- The segment-resolution loop of Node's `normalizeString`: empty and
`"."` segments are dropped, `".."` acts through `popDotDot`, every
other segment is emitted.  `acc` holds the already-emitted segments in
reverse. -/
def normCore (allowAbove : Bool) : List (List Char) → List (List Char) → List (List Char)
  | acc, [] => acc.reverse
  | acc, seg :: rest =>
    if seg = [] ∨ seg = ['.'] then normCore allowAbove acc rest
    else if seg = ['.', '.'] then normCore allowAbove (popDotDot allowAbove acc) rest
    else normCore allowAbove (seg :: acc) rest

/-- Join segments back with `'/'`. -/
def joinSegs : List (List Char) → List Char
  | [] => []
  | [s] => s
  | s :: s' :: rest => s ++ '/' :: joinSegs (s' :: rest)

/-- `path.posix.normalize` on character lists, following Node's
implementation: empty input yields `"."`; otherwise resolve `"."`/`".."`
segments, then re-attach the root `'/'` and any trailing separator. -/
def normalizeChars (cs : List Char) : List Char :=
  if cs = [] then ['.']
  else
    let isAbs := startsSlash cs
    let hasTrail := endsSlash cs
    let core := joinSegs (normCore (!isAbs) [] (splitOnSlash cs))
    if core = [] then
      if isAbs then ['/']
      else if hasTrail then ['.', '/'] else ['.']
    else
      let core2 := if hasTrail then core ++ ['/'] else core
      if isAbs then '/' :: core2 else core2

/-- `path.posix.basename` (no extension argument) on character lists:
drop trailing separators, then take the final separator-free run. -/
def basenameChars (cs : List Char) : List Char :=
  ((cs.reverse.dropWhile (· == '/')).takeWhile (· != '/')).reverse

/-- `path.posix.normalize` on strings. -/
def pathNormalize (p : String) : String :=
  String.mk (normalizeChars p.toList)

/-- `path.posix.basename` on strings. -/
def pathBasename (p : String) : String :=
  String.mk (basenameChars p.toList)

/-- `path.posix.join(a, b)`: concatenate the non-empty parts with `'/'`
and normalize; an all-empty join yields `"."`. -/
def joinChars (a b : List Char) : List Char :=
  let j := if a = [] then b else if b = [] then a else a ++ '/' :: b
  if j = [] then ['.'] else normalizeChars j

/-- `path.posix.join` on strings. -/
def pathJoin (a b : String) : String :=
  String.mk (joinChars a.toList b.toList)

/-- `os.tmpdir()`: the server's temp directory (`/tmp` on the POSIX
systems this server targets; an absolute path with no trailing
separator, as Node guarantees). -/
def tmpdir : String := "/tmp"

/-- `sanitizeFilePath` from db-commands.ts: normalize the caller path,
strip every directory component with `basename`, and re-root the result
under the temp directory. -/
def sanitizeFilePath (filePath : String) : String :=
  pathJoin tmpdir (pathBasename (pathNormalize filePath))

/-- Kernel-style resolution of the (possibly relative) raw path that
`fs.stat(filePath)` receives: absolute paths resolve to themselves,
relative ones against the process working directory (symlinks are not
modelled). -/
def resolvePath (cwd p : String) : String :=
  if startsSlash p.toList then pathNormalize p
  else pathNormalize (cwd ++ "/" ++ p)

example : pathNormalize "../../etc/passwd" = "../../etc/passwd" := by rfl
example : pathNormalize "/a/b/../../etc/passwd" = "/etc/passwd" := by rfl
example : pathNormalize "a/../" = "./" := by rfl
example : pathNormalize "a/.." = "." := by rfl
example : pathNormalize "//a//b/" = "/a/b/" := by rfl
example : pathBasename "/foo/bar/" = "bar" := by rfl
example : pathBasename "/" = "" := by rfl
example : pathBasename ".." = ".." := by rfl
example : sanitizeFilePath "../../etc/passwd" = "/tmp/passwd" := by rfl
example : sanitizeFilePath ".." = "/" := by rfl
example : sanitizeFilePath "/a/.." = "/tmp" := by rfl
example : sanitizeFilePath "report.json" = "/tmp/report.json" := by rfl
example : resolvePath "/a/b" "../../etc/passwd" = "/etc/passwd" := by rfl

/-! ### Command validation (`db-command-types.ts`, `validateCommand`) -/

/-- `ALLOWED_COMMANDS` from db-command-types.ts. -/
def ALLOWED_COMMANDS : List String :=
  ["dbStats", "collStats", "serverStatus", "buildInfo", "connectionStatus",
   "ping", "hello", "hostInfo", "listCommands", "features", "connect",
   "disconnect"]

/-- `DANGEROUS_OPERATORS` from db-command-types.ts. -/
def DANGEROUS_OPERATORS : List String :=
  ["$where", "$function", "$accumulator", "$map", "$merge", "$out",
   "$lookup", "$graphLookup"]

/-- `MongoCommandErrorCode` (the zod enum in db-command-types.ts). -/
inductive MongoCommandErrorCode where
  | COMMAND_NOT_ALLOWED
  | INVALID_COMMAND_STRUCTURE
  | DANGEROUS_OPERATION
  | EXECUTION_ERROR
  | FILE_OPERATION_ERROR
  | CONNECTION_ERROR
  | TIMEOUT_ERROR
deriving DecidableEq, Repr

/-- `MongoCommandError` (code, message, optional details), the value
built by `createCommandError`.  Host `Error` objects attached as
`details` by the catch blocks are opaque to this embedding and modelled
as `none`; the one structured `details` the code builds itself
(`{ timeoutMs }`) is a `JsValue`. -/
structure MongoCommandError where
  code : MongoCommandErrorCode
  message : String
  details : Option JsValue := none

/-- The error code of an `Except` result, if it is an error. -/
def errCode : Except MongoCommandError α → Option MongoCommandErrorCode
  | .error e => some e.code
  | .ok _ => none

/-- `options[k]` on an insertion-ordered JS object. -/
def lookupKey (opts : List (String × JsValue)) (k : String) : Option JsValue :=
  (opts.find? (fun kv => kv.1 = k)).map (fun kv => kv.2)

/-- `a?.k || fallback`: the property's value when present and truthy,
otherwise the fallback (also taken when the property is absent, i.e.
`undefined`). -/
def jsOrProp (o : Option JsValue) (fallback : JsValue) : JsValue :=
  match o with
  | some v => if jsTruthy v then v else fallback
  | none => fallback

/-- `!!opts.k`: `false` when the key is absent (`undefined`). -/
def truthyProp (opts : List (String × JsValue)) (k : String) : Bool :=
  match lookupKey opts k with
  | some v => jsTruthy v
  | none => false

/-- The JS object literal `{ [k]: v, ...opts }`: the key `k` first (its
value overridden by `opts` if `opts` also holds `k`), then the remaining
entries of `opts` in order. -/
def spread1 (k : String) (v : JsValue) (opts : List (String × JsValue)) :
    List (String × JsValue) :=
  (k, (lookupKey opts k).getD v) :: opts.filter (fun kv => ¬ kv.1 = k)

/-- `pat` is a prefix of `s`. -/
def isPrefixList : List Char → List Char → Bool
  | [], _ => true
  | _ :: _, [] => false
  | a :: as, b :: bs => a == b && isPrefixList as bs

/-- `s.includes(pat)`: `pat` occurs as a contiguous substring. -/
def hasSub (pat : List Char) : List Char → Bool
  | [] => isPrefixList pat []
  | c :: rest => isPrefixList pat (c :: rest) || hasSub pat rest

/-- `String.prototype.includes` on strings. -/
def strContains (s pat : String) : Bool :=
  hasSub pat.toList s.toList

example : strContains "ab$where\":x" "$where\":" = true := by rfl
example : strContains "ab$where\"x" "$where\":" = false := by rfl

/-- The synthetic command object `validateCommand` builds to check the
request's structure: `{ [command]: options?.collection || '', ...options }`
for `collStats`, `{ [command]: 1, ...options }` otherwise. -/
def validationCommandObj (command : String) (options : List (String × JsValue)) :
    List (String × JsValue) :=
  if command = "collStats" then
    spread1 command (jsOrProp (lookupKey options "collection") (.str "")) options
  else
    spread1 command (.num 1) options

/-- `validateCommand` from db-commands.ts: allowlist check, then the
structural-injection scan over the synthetic object's keys (first
offending key wins), then the dangerous-operator scan over the compact
JSON serialization (first listed operator wins).  JS `throw` is
modelled by `Except.error`. -/
def validateCommand (command : String)
    (options : List (String × JsValue) := []) : Except MongoCommandError Unit :=
  if ¬ ALLOWED_COMMANDS.contains command then
    .error { code := .COMMAND_NOT_ALLOWED,
             message := "Command \x27" ++ command ++
               "\x27 is not allowed. Allowed commands: " ++
               ", ".intercalate ALLOWED_COMMANDS }
  else
    let commandObj := validationCommandObj command options
    match (commandObj.map (fun kv => kv.1)).find?
        (fun key => key != command && ALLOWED_COMMANDS.contains key) with
    | some key =>
      .error { code := .INVALID_COMMAND_STRUCTURE,
               message := "Invalid command structure: Contains another command key \x27" ++
                 key ++ "\x27" }
    | none =>
      let flattened := stringify (.obj commandObj)
      match DANGEROUS_OPERATORS.find?
          (fun dangerous => strContains flattened ("\"" ++ dangerous ++ "\":")) with
      | some dangerous =>
        .error { code := .DANGEROUS_OPERATION,
                 message := "Command contains potentially dangerous operation: " ++
                   dangerous }
      | none => .ok ()

example : validateCommand "ping" [] = .ok () := by rfl
example : errCode (validateCommand "dropDatabase" []) =
    some .COMMAND_NOT_ALLOWED := by rfl
example : errCode (validateCommand "ping" [("dbStats", .num 1)]) =
    some .INVALID_COMMAND_STRUCTURE := by rfl
example : errCode (validateCommand "ping" [("f", .obj [("$where", .str "x")])]) =
    some .DANGEROUS_OPERATION := by rfl

/-! ### Temp-file spill and chunked read (`writeResultToTempFile`,
`readFileChunk`) -/

/-- The filesystem, as the chunk reader and spiller observe it: a map
from absolute paths to the byte content of regular files.  Directories
(such as `/`, `/tmp` and every ancestor of `/tmp`) hold no byte content
and are absent from the map. -/
def Fs := String → Option (List UInt8)

/-- The file record returned by `writeResultToTempFile`. -/
structure SpillRecord where
  filePath : String
  size : Nat
  timestamp : String
  notice : String

/-- `new Date().toISOString().replace(/[:.]/g, '-')`. -/
def sanitizeTs (s : String) : String :=
  String.mk (s.toList.map (fun c => if c = ':' ∨ c = '.' then '-' else c))

/-- `writeResultToTempFile` from db-commands.ts: build the
timestamp-unique file name under `os.tmpdir()`, write the pretty-printed
JSON serialization as UTF-8, stat the file for its size, and return the
record.  `nowIso` is the host clock's `toISOString()` output.  The model
inlines a successful write (host I/O failures, which the source wraps as
`FILE_OPERATION_ERROR`, have no representation in a total map update). -/
def writeResultToTempFile (fs : Fs) (nowIso : String) (data : JsValue) :
    SpillRecord × Fs :=
  let timestamp := sanitizeTs nowIso
  let fileName := "mongodb-result-" ++ timestamp ++ ".json"
  let filePath := pathJoin tmpdir fileName
  let jsonData := stringifyPretty data
  let bytes := utf8Bytes jsonData
  let fs' : Fs := fun q => if q = filePath then some bytes else fs q
  ({ filePath := filePath, size := bytes.length, timestamp := timestamp,
     notice := "Result exceeded size limit and was written to a temporary file." },
   fs')

/-- The successful result of `readFileChunk`.  `chunk` is the byte
range handed to `buffer.subarray(0, bytesRead)`; the JS string the
source actually returns in its place is the lossy decode
`utf8Decode chunk` (see `utf8DecodeChars`).  `length` is `bytesRead`. -/
structure ChunkResult where
  chunk : List UInt8
  offset : Nat
  length : Nat
  totalSize : Nat
  hasMore : Bool

/-- `readFileChunk` from db-commands.ts: sanitize the caller path and
open that file (`fs.open(sanitizedPath, 'r')`), stat **the raw caller
path** (`fs.stat(filePath)`, resolved against the process working
directory `cwd`), read up to `length` bytes at byte offset `offset`
from the opened file, and report `hasMore` against the statted size.
A failed open or stat is caught and wrapped as `FILE_OPERATION_ERROR`
(the host error text attached to the message is outside the model). -/
def readFileChunk (fs : Fs) (cwd : String) (filePath : String)
    (offset : Nat := 0) (length : Nat := 50000) :
    Except MongoCommandError ChunkResult :=
  let sanitizedPath := sanitizeFilePath filePath
  match fs sanitizedPath with
  | none => .error { code := .FILE_OPERATION_ERROR,
                     message := "Failed to read from temp file" }
  | some fileBytes =>
    match fs (resolvePath cwd filePath) with
    | none => .error { code := .FILE_OPERATION_ERROR,
                       message := "Failed to read from temp file" }
    | some statBytes =>
      let buf := (fileBytes.drop offset).take length
      .ok { chunk := buf, offset := offset, length := buf.length,
            totalSize := statBytes.length,
            hasMore := decide (offset + buf.length < statBytes.length) }

/-! ### Command execution (`executeCommand`) -/

/-- `MAX_RESPONSE_SIZE` from db-commands.ts. -/
def MAX_RESPONSE_SIZE : Nat := 100000

/-- `DEFAULT_TIMEOUT` from db-commands.ts (milliseconds). -/
def DEFAULT_TIMEOUT : Int := 30000

/-- `typeof options.timeout === 'number' ? options.timeout :
DEFAULT_TIMEOUT`. -/
def execTimeout (options : List (String × JsValue)) : Int :=
  match lookupKey options "timeout" with
  | some (.num n) => n
  | _ => DEFAULT_TIMEOUT

/-- The three response-control keys `executeCommand` strips before
validation and execution. -/
def cleanOptions (options : List (String × JsValue)) : List (String × JsValue) :=
  options.filter (fun kv =>
    ¬ (kv.1 = "outputToFile" ∨ kv.1 = "forceOutput" ∨ kv.1 = "timeout"))

/-- The concrete command payload `executeCommand` sends to
`db.command`.  For `collStats` the value is
`cleanOptions?.collection || cleanOptions?.collStats` and the
`collection`/`collStats` keys are then deleted — note the second
`delete` removes the command key itself, so the placeholder value never
survives; for `dbStats` the value is `1`; otherwise it is
`cleanOptions?.collection || 1`. -/
def execCommandObj (command : String) (opts : List (String × JsValue)) :
    List (String × JsValue) :=
  if command = "collStats" then
    (spread1 command
        (jsOrProp (lookupKey opts "collection")
          ((lookupKey opts "collStats").getD (.str ""))) opts).filter
      (fun kv => ¬ kv.1 = "collection" ∧ ¬ kv.1 = "collStats")
  else if command = "dbStats" then
    spread1 command (.num 1) opts
  else
    spread1 command (jsOrProp (lookupKey opts "collection") (.num 1)) opts

example : execCommandObj "connect" [] = [("connect", .num 1)] := by rfl
example : execCommandObj "collStats" [("collection", .str "users"), ("scale", .num 1)] =
    [("scale", .num 1)] := by rfl

/-- The host-world parameters of one `executeCommand` call: how long the
driver takes to settle `db.command(payload)` (milliseconds), what it
settles to (`.error` models a driver rejection with the given message),
the filesystem, and the clock reading used for a spill file name. -/
structure ExecEnv where
  dbLatency : Nat
  dbRun : List (String × JsValue) → Except String JsValue
  fs : Fs
  nowIso : String

/-- A successful `executeCommand` either returns the driver result
inline or a spill record for the temp file it wrote. -/
inductive ExecOutcome where
  | inline (result : JsValue)
  | spilled (sp : SpillRecord)

/-- The size/outputToFile/forceOutput decision at the end of
`executeCommand`: spill when `(resultSize > MAX_RESPONSE_SIZE ||
outputToFile) && !forceOutput`, else return the result directly. -/
def finishResult (env : ExecEnv) (options : List (String × JsValue))
    (result : JsValue) : Except MongoCommandError (ExecOutcome × Fs) :=
  let resultSize := utf16Length (stringify result)
  if (decide (resultSize > MAX_RESPONSE_SIZE) || truthyProp options "outputToFile")
      && !truthyProp options "forceOutput" then
    let sp := writeResultToTempFile env.fs env.nowIso result
    .ok (.spilled sp.1, sp.2)
  else
    .ok (.inline result, env.fs)

/-- The execution phase after validation passed: race
`db.command(commandObj)` against the `withTimeout` timer (the timer
wins exactly when the driver has not settled within `timeout` ms, and
rejects with `TIMEOUT_ERROR` carrying `{ timeoutMs }`); a driver
rejection is wrapped as `EXECUTION_ERROR`; a driver result goes through
the spill decision. -/
def afterValidate (env : ExecEnv) (command : String)
    (options : List (String × JsValue)) : Except MongoCommandError (ExecOutcome × Fs) :=
  let timeoutMs := execTimeout options
  if (env.dbLatency : Int) < timeoutMs then
    match env.dbRun (execCommandObj command (cleanOptions options)) with
    | .error msg =>
      .error { code := .EXECUTION_ERROR,
               message := "Failed to execute command \x27" ++ command ++ "\x27: " ++ msg }
    | .ok result => finishResult env options result
  else
    .error { code := .TIMEOUT_ERROR,
             message := "Command \x27" ++ command ++ "\x27 timed out after " ++
               toString timeoutMs ++ "ms",
             details := some (.obj [("timeoutMs", .num timeoutMs)]) }

/-- `executeCommand` from db-commands.ts: extract and strip the control
options, validate the stripped options (a validation error propagates
unchanged: the catch block rethrows any error that carries a `code`),
then execute with timeout and apply the spill decision. -/
def executeCommand (env : ExecEnv) (command : String)
    (options : List (String × JsValue) := []) :
    Except MongoCommandError (ExecOutcome × Fs) :=
  match validateCommand command (cleanOptions options) with
  | .error e => .error e
  | .ok _ => afterValidate env command options

/-! ### Connection lifecycle (`connectToMongoDB`) -/

/-- The module-level connection state: the `mongoClient` and `mongoDb`
reference variables (handles are opaque ids). -/
structure ConnState where
  mongoClient : Option Nat
  mongoDb : Option Nat

/-- Which host operations fail during one `connectToMongoDB` call:
`closeThrows` — `mongoClient.close()` rejects; `ctorThrows` —
`new MongoClient(url, ...)` throws (e.g. an invalid URL); and
`connectThrows` — `mongoClient.connect()` rejects. -/
structure ConnWorld where
  closeThrows : Bool
  ctorThrows : Bool
  connectThrows : Bool

/-- The fresh-connection phase of `connectToMongoDB` (after any old
client was closed): `mongoClient = new MongoClient(url, ...)`, `await
mongoClient.connect()`, `mongoDb = mongoClient.db()`.  A throw at any
point lands in the catch block, which logs and returns `false`, leaving
the assignments made so far in place. -/
def connectFresh (s : ConnState) (w : ConnWorld) (c : Nat) : Bool × ConnState :=
  if w.ctorThrows then (false, s)
  else if w.connectThrows then (false, { s with mongoClient := some c })
  else (true, { mongoClient := some c, mongoDb := some c })

/-- `connectToMongoDB` from db-commands.ts: close and clear any
existing client first (a throwing `close()` reaches the catch block
with both references still set), then connect fresh.  Total — the JS
function never throws (every failure is caught and reported as
`false`). -/
def connectToMongoDB (s : ConnState) (w : ConnWorld) (c : Nat) : Bool × ConnState :=
  match s.mongoClient with
  | some _ =>
    if w.closeThrows then (false, s)
    else connectFresh { mongoClient := none, mongoDb := none } w c
  | none => connectFresh s w c

/-- `isMongoConnected` from db-commands.ts: `!!mongoClient && !!mongoDb`. -/
def isMongoConnected (s : ConnState) : Bool :=
  s.mongoClient.isSome && s.mongoDb.isSome

/-! ### The `run_command` request handler (index_new.ts) -/

/-- How the `run_command` tool handler disposes of a request: an error
text returned before any database interaction, or delegation to
`executeCommand` (which is where the first database call happens). -/
inductive RouterOutcome where
  | earlyError (text : String)
  | delegatedToExecute (command : String) (options : List (String × JsValue))

/-- The `run_command` branch of the `CallToolRequest` handler in
index_new.ts, up to the first database interaction: reject a missing
command name; for `collStats`, compute
`options?.collection || options?.collStats || ''` and reject an empty
result before calling `executeCommand`; otherwise delegate. -/
def handleRunCommand (command : String) (options : List (String × JsValue)) :
    RouterOutcome :=
  if command = "" then .earlyError "Error: Command name is required"
  else if command = "collStats" then
    let collName := jsOrProp (lookupKey options "collection")
      (jsOrProp (lookupKey options "collStats") (.str ""))
    if ¬ jsTruthy collName then
      .earlyError "Error: Collection name is required for collStats"
    else .delegatedToExecute command options
  else .delegatedToExecute command options

/-! ## Supporting lemmas -/

/-- The top-level keys of the synthetic validation object are the
command followed by the option keys other than the command, in order
(the same for both the `collStats` and the default shaping). -/
theorem validationCommandObj_keys (command : String)
    (options : List (String × JsValue)) :
    (validationCommandObj command options).map (fun kv => kv.1) =
      command :: (options.filter (fun kv => ¬ kv.1 = command)).map (fun kv => kv.1) := by
  unfold validationCommandObj spread1
  split <;> rfl

/-! ## Claim C3 -/

/-- Claim C3: for every allowlisted command and every options bag
containing a top-level key that is itself an allowlisted command name
and differs from the command being run, `validateCommand` fails with
`INVALID_COMMAND_STRUCTURE`. -/
theorem validateCommand_rejects_allowlisted_decoy_key
    (command : String) (options : List (String × JsValue))
    (hcmd : command ∈ ALLOWED_COMMANDS)
    (hkey : ∃ kv ∈ options, kv.1 ≠ command ∧ kv.1 ∈ ALLOWED_COMMANDS) :
    errCode (validateCommand command options) = some .INVALID_COMMAND_STRUCTURE := by
  have hcon : ALLOWED_COMMANDS.contains command = true := by
    simpa using hcmd
  obtain ⟨kv, hkvmem, hkvne, hkvallow⟩ := hkey
  have hkeys : kv.1 ∈ (validationCommandObj command options).map (fun kv => kv.1) := by
    rw [validationCommandObj_keys]
    exact List.mem_cons_of_mem _
      (List.mem_map.mpr ⟨kv, List.mem_filter.mpr ⟨hkvmem, by simpa using hkvne⟩, rfl⟩)
  have hpred : (kv.1 != command && ALLOWED_COMMANDS.contains kv.1) = true := by
    simp [hkvne, hkvallow]
  have hsome : (((validationCommandObj command options).map (fun kv => kv.1)).find?
      (fun key => key != command && ALLOWED_COMMANDS.contains key)).isSome :=
    List.find?_isSome.mpr ⟨kv.1, hkeys, hpred⟩
  obtain ⟨key, hf⟩ := Option.isSome_iff_exists.mp hsome
  simp only [validateCommand]
  rw [if_neg (by simp; exact hcmd), hf]
  rfl

/-- Witness for C3 (the spec's own example shape: an allowlisted decoy
key `dbStats` inside the options of an allowed `ping`). -/
theorem validateCommand_rejects_allowlisted_decoy_key_witness :
    ("ping" ∈ ALLOWED_COMMANDS ∧
      ("dbStats" : String) ≠ "ping" ∧ "dbStats" ∈ ALLOWED_COMMANDS) ∧
    errCode (validateCommand "ping" [("dbStats", .num 1)]) =
      some .INVALID_COMMAND_STRUCTURE :=
  ⟨⟨by decide, by decide, by decide⟩,
    validateCommand_rejects_allowlisted_decoy_key "ping" [("dbStats", .num 1)]
      (by decide)
      ⟨("dbStats", .num 1), List.mem_cons_self _ _, by decide, by decide⟩⟩


/-! ## Claim C2 -/

/-- Counterexample to C2 as stated: with an allowlisted decoy key in the
options bag alongside a dangerous operator, the serialized synthetic
object does contain `"$where":` as a key, yet `validateCommand` fails
with `INVALID_COMMAND_STRUCTURE` (the structural-injection check runs
first), not with `DANGEROUS_OPERATION`. -/
theorem validateCommand_dangerous_preempted_counterexample :
    strContains
      (stringify (.obj (validationCommandObj "ping"
        [("dbStats", .num 1), ("$where", .str "sleep(100)")])))
      "\"$where\":" = true ∧
    validateCommand "ping" [("dbStats", .num 1), ("$where", .str "sleep(100)")] =
      .error { code := .INVALID_COMMAND_STRUCTURE,
               message := "Invalid command structure: Contains another command key \x27dbStats\x27" } ∧
    MongoCommandErrorCode.INVALID_COMMAND_STRUCTURE ≠ .DANGEROUS_OPERATION :=
  ⟨rfl, rfl, by decide⟩

/-- Claim C2, amended: if the compact JSON serialization of the
synthetic command object contains a dangerous-operator token as a JSON
key (the text `"$token":`, at any nesting depth), then `validateCommand`
fails with `DANGEROUS_OPERATION` naming an offending token — provided no
top-level options key other than the command itself is an allowlisted
command name (otherwise the structural-injection check fires first with
`INVALID_COMMAND_STRUCTURE`). -/
theorem validateCommand_dangerous_operator
    (command : String) (options : List (String × JsValue))
    (hcmd : command ∈ ALLOWED_COMMANDS)
    (hnokey : ∀ kv ∈ options, kv.1 ≠ command → kv.1 ∉ ALLOWED_COMMANDS)
    (htok : ∃ tok ∈ DANGEROUS_OPERATORS,
        strContains (stringify (.obj (validationCommandObj command options)))
          ("\"" ++ tok ++ "\":") = true) :
    errCode (validateCommand command options) = some .DANGEROUS_OPERATION ∧
    ∃ tok, tok ∈ DANGEROUS_OPERATORS ∧
      strContains (stringify (.obj (validationCommandObj command options)))
        ("\"" ++ tok ++ "\":") = true ∧
      validateCommand command options =
        .error { code := .DANGEROUS_OPERATION,
                 message := "Command contains potentially dangerous operation: " ++ tok } := by
  have hnone : (((validationCommandObj command options).map (fun kv => kv.1)).find?
      (fun key => key != command && ALLOWED_COMMANDS.contains key)) = none := by
    refine List.find?_eq_none.mpr ?_
    intro k hk
    rw [validationCommandObj_keys] at hk
    rcases List.mem_cons.mp hk with hkc | hkm
    · subst hkc; simp
    · obtain ⟨kv, hkvf, hkv1⟩ := List.mem_map.mp hkm
      obtain ⟨hkvmem, hkvne⟩ := List.mem_filter.mp hkvf
      have hne : kv.1 ≠ command := by simpa using hkvne
      have : kv.1 ∉ ALLOWED_COMMANDS := hnokey kv hkvmem hne
      subst hkv1
      simp [this]
  obtain ⟨tok0, htok0mem, htok0⟩ := htok
  have hsome : ((DANGEROUS_OPERATORS.find?
      (fun dangerous =>
        strContains (stringify (.obj (validationCommandObj command options)))
          ("\"" ++ dangerous ++ "\":")))).isSome :=
    List.find?_isSome.mpr ⟨tok0, htok0mem, htok0⟩
  obtain ⟨tok, hf⟩ := Option.isSome_iff_exists.mp hsome
  have hres : validateCommand command options =
      .error { code := .DANGEROUS_OPERATION,
               message := "Command contains potentially dangerous operation: " ++ tok } := by
    simp only [validateCommand]
    rw [if_neg (by simp; exact hcmd), hnone, hf]
  have hcontains := List.find?_some hf
  have hmem : tok ∈ DANGEROUS_OPERATORS := List.mem_of_find?_eq_some hf
  exact ⟨by rw [hres]; rfl, tok, hmem, hcontains, hres⟩

/-- Witness for the amended C2: a dangerous operator nested one level
deep inside an allowed command's options, with no allowlisted decoy
keys. -/
theorem validateCommand_dangerous_operator_witness :
    ("ping" ∈ ALLOWED_COMMANDS ∧
      strContains
        (stringify (.obj (validationCommandObj "ping"
          [("filter", .obj [("$where", .str "sleep(100)")])])))
        "\"$where\":" = true) ∧
    errCode (validateCommand "ping" [("filter", .obj [("$where", .str "sleep(100)")])]) =
      some .DANGEROUS_OPERATION :=
  ⟨⟨by decide, by rfl⟩,
    (validateCommand_dangerous_operator "ping"
      [("filter", .obj [("$where", .str "sleep(100)")])]
      (by decide)
      (by intro kv hkv hne
          have : kv = ("filter", JsValue.obj [("$where", .str "sleep(100)")]) := by
            simpa using hkv
          subst this
          decide)
      ⟨"$where", by decide, by rfl⟩).1⟩

/-! ## Claim C4 -/

/-- Claim C4: a `run_command` request for `collStats` whose options bag
holds neither a truthy (non-empty) `collection` nor a truthy
`collStats` entry is answered with an error text by the request handler
before `executeCommand` — and hence before any database call — is
reached. -/
theorem handleRunCommand_collStats_requires_name
    (options : List (String × JsValue))
    (hcoll : truthyProp options "collection" = false)
    (hcs : truthyProp options "collStats" = false) :
    handleRunCommand "collStats" options =
      .earlyError "Error: Collection name is required for collStats" := by
  simp only [handleRunCommand]
  have hname : jsTruthy (jsOrProp (lookupKey options "collection")
      (jsOrProp (lookupKey options "collStats") (.str ""))) = false := by
    cases hc : lookupKey options "collection" with
    | some v =>
      have hv : jsTruthy v = false := by simpa [truthyProp, hc] using hcoll
      cases hs : lookupKey options "collStats" with
      | some w =>
        have hw : jsTruthy w = false := by simpa [truthyProp, hs] using hcs
        simp only [jsOrProp, hv, hw, if_false, Bool.false_eq_true]
        decide
      | none =>
        simp only [jsOrProp, hv, Bool.false_eq_true, if_false]
        decide
    | none =>
      cases hs : lookupKey options "collStats" with
      | some w =>
        have hw : jsTruthy w = false := by simpa [truthyProp, hs] using hcs
        simp only [jsOrProp, hw, Bool.false_eq_true, if_false]
        decide
      | none => decide
  simp [hname]

/-- Witness for C4: `collStats` with an empty `collection` string and
no `collStats` entry fails in the handler. -/
theorem handleRunCommand_collStats_requires_name_witness :
    (truthyProp [("collection", .str "")] "collection" = false ∧
      truthyProp [("collection", .str "")] "collStats" = false) ∧
    handleRunCommand "collStats" [("collection", .str "")] =
      .earlyError "Error: Collection name is required for collStats" :=
  ⟨⟨by rfl, by rfl⟩,
    handleRunCommand_collStats_requires_name [("collection", .str "")] (by rfl) (by rfl)⟩

/-! ## Claim C9 -/

/-- Counterexample to C9 as stated: starting disconnected, with a URL
whose `connect()` call rejects (the constructor itself succeeding),
`connectToMongoDB` returns `false` — but the freshly constructed client
object remains stored in `mongoClient`, contradicting "no stored
client". -/
theorem connectToMongoDB_stores_client_on_connect_failure :
    (connectToMongoDB ⟨none, none⟩ ⟨false, false, true⟩ 7).1 = false ∧
    (connectToMongoDB ⟨none, none⟩ ⟨false, false, true⟩ 7).2.mongoClient = some 7 ∧
    (connectToMongoDB ⟨none, none⟩ ⟨false, false, true⟩ 7).2.mongoDb = none :=
  ⟨rfl, rfl, rfl⟩

/-- Claim C9, amended: `connectToMongoDB` never throws (it is a total
function of the failure world).  On success it stores the new client
and database handles and returns `true`.  On any failure it returns
`false`; unless the failure was the `close()` of a previous connection
(in which case the old client and db handles remain stored and the
state is unchanged), no database handle is stored afterwards and
`isMongoConnected()` reports `false` — though after a failure of
`connect()` itself the new, unconnected client object does remain
stored. -/
theorem connectToMongoDB_amended (s : ConnState) (w : ConnWorld) (c : Nat)
    (hinv : s.mongoClient = none → s.mongoDb = none) :
    ((connectToMongoDB s w c).1 = true →
      (connectToMongoDB s w c).2 = ⟨some c, some c⟩) ∧
    ((connectToMongoDB s w c).1 = false →
      (¬ (s.mongoClient.isSome ∧ w.closeThrows = true) →
        (connectToMongoDB s w c).2.mongoDb = none ∧
        isMongoConnected (connectToMongoDB s w c).2 = false) ∧
      ((s.mongoClient.isSome ∧ w.closeThrows = true) →
        (connectToMongoDB s w c).2 = s)) ∧
    (s.mongoClient = none → w.ctorThrows = false → w.connectThrows = true →
      (connectToMongoDB s w c).2 = ⟨some c, none⟩) := by
  unfold connectToMongoDB connectFresh
  cases hmc : s.mongoClient with
  | some old =>
    by_cases hcl : w.closeThrows
    · simp [hcl, hmc]
    · by_cases hctor : w.ctorThrows
      · simp [hcl, hctor, isMongoConnected]
      · by_cases hconn : w.connectThrows
        · simp [hcl, hctor, hconn, isMongoConnected]
        · simp [hcl, hctor, hconn]
  | none =>
    have hdb : s.mongoDb = none := hinv hmc
    by_cases hctor : w.ctorThrows
    · simp [hctor, isMongoConnected, hmc, hdb]
    · by_cases hconn : w.connectThrows
      · simp [hctor, hconn, isMongoConnected, hmc, hdb]
      · simp [hctor, hconn]

/-- Witness for the amended C9: a fresh state with a rejecting
`connect()` leaves a stored (unconnected) client and no db handle. -/
theorem connectToMongoDB_amended_witness :
    ((⟨none, none⟩ : ConnState).mongoClient = none → (⟨none, none⟩ : ConnState).mongoDb = none) ∧
    (connectToMongoDB ⟨none, none⟩ ⟨false, false, true⟩ 7).2 = ⟨some 7, none⟩ :=
  ⟨fun _ => rfl,
    (connectToMongoDB_amended ⟨none, none⟩ ⟨false, false, true⟩ 7 (fun _ => rfl)).2.2
      rfl rfl rfl⟩

/-! ## Claim C10 -/

/-- A driver that settles immediately and echoes the payload it was
given, used to exhibit exactly which command object `executeCommand`
forwards to `db.command`. -/
def echoEnv : ExecEnv :=
  { dbLatency := 0, dbRun := fun payload => .ok (.obj payload),
    fs := fun _ => none, nowIso := "2025-01-01T00:00:00.000Z" }

/-- Claim C10: the allowlist contains the pseudo-command names
`connect` and `disconnect`; `validateCommand` passes them with empty
options, and `executeCommand` forwards the payloads `{connect: 1}` and
`{disconnect: 1}` to the database handle (shown against the echo
driver) instead of rejecting them with `COMMAND_NOT_ALLOWED`. -/
theorem connect_disconnect_are_pseudo_commands :
    ("connect" ∈ ALLOWED_COMMANDS ∧ "disconnect" ∈ ALLOWED_COMMANDS) ∧
    (validateCommand "connect" [] = .ok () ∧
      validateCommand "disconnect" [] = .ok ()) ∧
    (execCommandObj "connect" (cleanOptions []) = [("connect", .num 1)] ∧
      execCommandObj "disconnect" (cleanOptions []) = [("disconnect", .num 1)]) ∧
    (executeCommand echoEnv "connect" [] =
        .ok (.inline (.obj [("connect", .num 1)]), echoEnv.fs) ∧
      executeCommand echoEnv "disconnect" [] =
        .ok (.inline (.obj [("disconnect", .num 1)]), echoEnv.fs)) :=
  ⟨⟨by decide, by decide⟩, ⟨rfl, rfl⟩, ⟨rfl, rfl⟩, ⟨rfl, rfl⟩⟩

/-! ## Claim C8 -/

/-- Claim C8: when the database operation does not settle within the
configured timeout (`options.timeout` when numeric, else the 30000 ms
default), `executeCommand` fails with `TIMEOUT_ERROR` whose `details`
carry the configured timeout value (and whose message names it). -/
theorem executeCommand_times_out (env : ExecEnv) (command : String)
    (options : List (String × JsValue))
    (hval : validateCommand command (cleanOptions options) = .ok ())
    (hslow : execTimeout options ≤ (env.dbLatency : Int)) :
    executeCommand env command options =
      .error { code := .TIMEOUT_ERROR,
               message := "Command \x27" ++ command ++ "\x27 timed out after " ++
                 toString (execTimeout options) ++ "ms",
               details := some (.obj [("timeoutMs", .num (execTimeout options))]) } := by
  unfold executeCommand
  rw [hval]
  unfold afterValidate
  rw [if_neg (not_lt.mpr hslow)]

/-- Witness for C8: a driver needing 30000 ms against the default
30000 ms timeout times out. -/
theorem executeCommand_times_out_witness :
    (validateCommand "ping" (cleanOptions []) = .ok () ∧
      execTimeout [] ≤ ((30000 : Nat) : Int)) ∧
    executeCommand
        { dbLatency := 30000, dbRun := fun _ => .ok .null,
          fs := fun _ => none, nowIso := "" } "ping" [] =
      .error { code := .TIMEOUT_ERROR,
               message := "Command \x27ping\x27 timed out after 30000ms",
               details := some (.obj [("timeoutMs", .num 30000)]) } :=
  ⟨⟨rfl, by decide⟩,
    executeCommand_times_out
      { dbLatency := 30000, dbRun := fun _ => .ok .null,
        fs := fun _ => none, nowIso := "" } "ping" [] rfl (by decide)⟩

/-! ## Claim C5 -/

/-- Claim C5: for a command execution that succeeds against the
database, `executeCommand` returns a spill record exactly when
(the serialized result exceeds `MAX_RESPONSE_SIZE` characters OR
`outputToFile` was set) AND `forceOutput` was not set; otherwise —
in particular whenever `forceOutput` is set, however large the
result — the raw result is returned inline. -/
theorem executeCommand_spill_decision (env : ExecEnv) (command : String)
    (options : List (String × JsValue)) (result : JsValue)
    (hval : validateCommand command (cleanOptions options) = .ok ())
    (hfast : (env.dbLatency : Int) < execTimeout options)
    (hdb : env.dbRun (execCommandObj command (cleanOptions options)) = .ok result) :
    ((∃ sp fs', executeCommand env command options = .ok (.spilled sp, fs')) ↔
      ((utf16Length (stringify result) > MAX_RESPONSE_SIZE ∨
          truthyProp options "outputToFile" = true) ∧
        truthyProp options "forceOutput" = false)) ∧
    (¬ ((utf16Length (stringify result) > MAX_RESPONSE_SIZE ∨
          truthyProp options "outputToFile" = true) ∧
        truthyProp options "forceOutput" = false) →
      executeCommand env command options = .ok (.inline result, env.fs)) := by
  have hexec : executeCommand env command options = finishResult env options result := by
    unfold executeCommand
    rw [hval]
    unfold afterValidate
    rw [if_pos hfast, hdb]
  rw [hexec]
  unfold finishResult
  by_cases hcond : ((decide (utf16Length (stringify result) > MAX_RESPONSE_SIZE) ||
      truthyProp options "outputToFile") && !truthyProp options "forceOutput") = true
  · have hcondP : (utf16Length (stringify result) > MAX_RESPONSE_SIZE ∨
        truthyProp options "outputToFile" = true) ∧
        truthyProp options "forceOutput" = false := by
      simpa [Bool.and_eq_true, Bool.or_eq_true, decide_eq_true_eq,
        Bool.not_eq_true'] using hcond
    rw [if_pos hcond]
    exact ⟨⟨fun _ => hcondP, fun _ => ⟨_, _, rfl⟩⟩, fun hn => absurd hcondP hn⟩
  · have hcondP : ¬ ((utf16Length (stringify result) > MAX_RESPONSE_SIZE ∨
        truthyProp options "outputToFile" = true) ∧
        truthyProp options "forceOutput" = false) := by
      intro hP
      exact hcond (by
        simp only [Bool.and_eq_true, Bool.or_eq_true, decide_eq_true_eq,
          Bool.not_eq_true']
        exact hP)
    rw [if_neg hcond]
    refine ⟨⟨?_, fun hP => absurd hP hcondP⟩, fun _ => rfl⟩
    rintro ⟨sp, fs', h⟩
    exact absurd h (by simp)

/-- Witness for C5 (the spec's `forceOutput` edge): with both
`outputToFile` and `forceOutput` set, the result comes back inline, not
as a spill record. -/
theorem executeCommand_spill_decision_witness :
    (validateCommand "ping"
        (cleanOptions [("outputToFile", .bool true), ("forceOutput", .bool true)]) = .ok () ∧
      ((0 : Nat) : Int) <
        execTimeout [("outputToFile", .bool true), ("forceOutput", .bool true)]) ∧
    executeCommand
        { dbLatency := 0, dbRun := fun _ => .ok .null,
          fs := fun _ => none, nowIso := "" } "ping"
        [("outputToFile", .bool true), ("forceOutput", .bool true)] =
      .ok (.inline .null,
        ({ dbLatency := 0, dbRun := fun _ => .ok .null,
           fs := fun _ => none, nowIso := "" } : ExecEnv).fs) :=
  ⟨⟨rfl, by decide⟩,
    (executeCommand_spill_decision
      { dbLatency := 0, dbRun := fun _ => .ok .null, fs := fun _ => none, nowIso := "" }
      "ping" [("outputToFile", .bool true), ("forceOutput", .bool true)] .null
      rfl (by decide) rfl).2 (by decide)⟩


/-! ## Path lemmas for C1, C6, C7 -/

/-- A basename never contains a separator. -/
theorem basenameChars_no_slash (cs : List Char) : '/' ∉ basenameChars cs := by
  intro hmem
  have hmem' := List.mem_reverse.mp hmem
  have hp := List.mem_takeWhile_imp hmem'
  simp at hp

/-- Splitting a separator-free list yields the single segment. -/
theorem splitOnSlash_no_slash (l : List Char) (h : '/' ∉ l) :
    splitOnSlash l = [l] := by
  induction l with
  | nil => rfl
  | cons c rest ih =>
    have hc : ¬ c = '/' := fun hc => h (hc ▸ List.mem_cons_self c rest)
    have hr : splitOnSlash rest = [rest] := ih (fun hm => h (List.mem_cons_of_mem c hm))
    simp [splitOnSlash, hc, hr]

theorem splitOnSlash_slash_cons (l : List Char) :
    splitOnSlash ('/' :: l) = [] :: splitOnSlash l := by
  simp [splitOnSlash]

theorem splitOnSlash_other_cons (c : Char) (l : List Char) (s : List Char)
    (ss : List (List Char)) (hc : ¬ c = '/') (h : splitOnSlash l = s :: ss) :
    splitOnSlash (c :: l) = (c :: s) :: ss := by
  simp [splitOnSlash, hc, h]

/-- `endsSlash` only looks at the last character. -/
theorem endsSlash_cons (c : Char) (l : List Char) (h : l ≠ []) :
    endsSlash (c :: l) = endsSlash l := by
  cases l with
  | nil => exact absurd rfl h
  | cons c' rest => rfl

/-- A path ending in a separator contains one. -/
theorem endsSlash_mem (l : List Char) (h : endsSlash l = true) : '/' ∈ l := by
  induction l with
  | nil => simp [endsSlash] at h
  | cons c rest ih =>
    cases rest with
    | nil =>
      simp [endsSlash] at h
      simp [h]
    | cons c' rest' =>
      exact List.mem_cons_of_mem c (ih h)

/-- A non-empty separator-free path does not end in a separator. -/
theorem endsSlash_no_slash (l : List Char) (h : '/' ∉ l) :
    endsSlash l = false := by
  cases hres : endsSlash l with
  | false => rfl
  | true => exact absurd (endsSlash_mem l hres) h

/-- `takeWhile` swallows a whole satisfying prefix and stops at the
first failing element. -/
theorem takeWhile_append_stop (p : Char → Bool) (l : List Char) (y : Char)
    (r : List Char) (hl : ∀ x ∈ l, p x = true) (hy : p y = false) :
    (l ++ y :: r).takeWhile p = l := by
  induction l with
  | nil => simp [List.takeWhile, hy]
  | cons c rest ih =>
    have hc : p c = true := hl c (List.mem_cons_self c rest)
    rw [List.cons_append, List.takeWhile_cons_of_pos hc,
      ih (fun x hx => hl x (List.mem_cons_of_mem c hx))]

/-- `normalizeChars` fixes `/tmp/<bare>` for a bare (non-empty,
separator-free, non-dot) final segment. -/
theorem normalizeChars_tmp_bare (b : List Char) (hb : b ≠ []) (hs : '/' ∉ b)
    (h1 : b ≠ ['.']) (h2 : b ≠ ['.', '.']) :
    normalizeChars ('/' :: 't' :: 'm' :: 'p' :: '/' :: b) =
      '/' :: 't' :: 'm' :: 'p' :: '/' :: b := by
  have e1 : splitOnSlash ('/' :: b) = [[], b] := by
    rw [splitOnSlash_slash_cons, splitOnSlash_no_slash b hs]
  have e2 : splitOnSlash ('p' :: '/' :: b) = [['p'], b] :=
    splitOnSlash_other_cons 'p' _ [] [b] (by decide) e1
  have e3 : splitOnSlash ('m' :: 'p' :: '/' :: b) = [['m', 'p'], b] :=
    splitOnSlash_other_cons 'm' _ ['p'] [b] (by decide) e2
  have e4 : splitOnSlash ('t' :: 'm' :: 'p' :: '/' :: b) = [['t', 'm', 'p'], b] :=
    splitOnSlash_other_cons 't' _ ['m', 'p'] [b] (by decide) e3
  have e5 : splitOnSlash ('/' :: 't' :: 'm' :: 'p' :: '/' :: b) =
      [[], ['t', 'm', 'p'], b] := by
    rw [splitOnSlash_slash_cons, e4]
  have htrail : endsSlash ('/' :: 't' :: 'm' :: 'p' :: '/' :: b) = false := by
    rw [endsSlash_cons _ _ (by simp), endsSlash_cons _ _ (by simp),
      endsSlash_cons _ _ (by simp), endsSlash_cons _ _ (by simp),
      endsSlash_cons _ _ hb]
    exact endsSlash_no_slash b hs
  have hcore : normCore false [] ([] :: ['t', 'm', 'p'] :: [b]) =
      [['t', 'm', 'p'], b] := by
    rw [normCore, if_pos (by simp)]
    rw [normCore, if_neg (by simp), if_neg (by simp)]
    rw [normCore, if_neg (by simp [hb, h1]), if_neg h2]
    rw [normCore]
    rfl
  have hjoin : joinSegs [['t', 'm', 'p'], b] = 't' :: 'm' :: 'p' :: '/' :: b := by
    simp [joinSegs]
  simp only [normalizeChars]
  rw [if_neg (show ¬('/' :: 't' :: 'm' :: 'p' :: '/' :: b = []) by simp)]
  rw [show startsSlash ('/' :: 't' :: 'm' :: 'p' :: '/' :: b) = true from rfl]
  rw [htrail, e5]
  simp only [Bool.not_true]
  rw [hcore, hjoin]
  simp

/-- `basenameChars` of `/tmp/<bare>` is the bare segment. -/
theorem basenameChars_tmp_bare (b : List Char) (hb : b ≠ []) (hs : '/' ∉ b) :
    basenameChars ('/' :: 't' :: 'm' :: 'p' :: '/' :: b) = b := by
  unfold basenameChars
  have hrev : ('/' :: 't' :: 'm' :: 'p' :: '/' :: b).reverse =
      b.reverse ++ ['/', 'p', 'm', 't', '/'] := by
    simp
  rw [hrev]
  obtain ⟨c0, rest, hcons⟩ : ∃ c0 rest, b.reverse = c0 :: rest := by
    cases hr : b.reverse with
    | nil => exact absurd (by simpa using hr) hb
    | cons c0 rest => exact ⟨c0, rest, rfl⟩
  have hc0mem : c0 ∈ b := List.mem_reverse.mp (hcons ▸ List.mem_cons_self c0 rest)
  have hc0ne : c0 ≠ '/' := fun he => hs (he ▸ hc0mem)
  have hdrop : (b.reverse ++ ['/', 'p', 'm', 't', '/']).dropWhile (· == '/') =
      b.reverse ++ ['/', 'p', 'm', 't', '/'] := by
    rw [hcons]
    simp only [List.cons_append, List.dropWhile_cons]
    rw [if_neg (by simpa using hc0ne)]
  rw [hdrop]
  have htake : (b.reverse ++ '/' :: ['p', 'm', 't', '/']).takeWhile (· != '/') =
      b.reverse := by
    refine takeWhile_append_stop _ _ _ _ ?_ (by decide)
    intro x hx
    have hxb : x ∈ b := List.mem_reverse.mp hx
    have hxne : x ≠ '/' := fun he => hs (he ▸ hxb)
    simpa using hxne
  rw [htake]
  simp

/-- `joinChars "/tmp" b` for a bare final segment is `/tmp/<b>`. -/
theorem joinChars_tmp_bare (b : List Char) (hb : b ≠ []) (hs : '/' ∉ b)
    (h1 : b ≠ ['.']) (h2 : b ≠ ['.', '.']) :
    joinChars ['/', 't', 'm', 'p'] b = '/' :: 't' :: 'm' :: 'p' :: '/' :: b := by
  simp only [joinChars]
  rw [if_neg (show ¬(['/', 't', 'm', 'p'] : List Char) = [] by simp)]
  rw [if_neg hb]
  rw [if_neg (show ¬((['/', 't', 'm', 'p'] : List Char) ++ '/' :: b) = [] by simp)]
  exact normalizeChars_tmp_bare b hb hs h1 h2

/-- Every sanitized path is the temp directory itself, the root
directory (for inputs normalizing to pure-`..` chains), or
`/tmp/<bare-file-name>`. -/
theorem sanitizeFilePath_cases (p : String) :
    sanitizeFilePath p = "/tmp" ∨ sanitizeFilePath p = "/" ∨
    ∃ b : List Char, b ≠ [] ∧ '/' ∉ b ∧
      sanitizeFilePath p = String.mk ('/' :: 't' :: 'm' :: 'p' :: '/' :: b) := by
  have hsan : sanitizeFilePath p =
      String.mk (joinChars ['/', 't', 'm', 'p']
        (basenameChars (normalizeChars p.toList))) := rfl
  have hnos : '/' ∉ basenameChars (normalizeChars p.toList) :=
    basenameChars_no_slash _
  by_cases hb0 : basenameChars (normalizeChars p.toList) = []
  · left
    rw [hsan, hb0]
    rfl
  · by_cases hb1 : basenameChars (normalizeChars p.toList) = ['.']
    · left
      rw [hsan, hb1]
      rfl
    · by_cases hb2 : basenameChars (normalizeChars p.toList) = ['.', '.']
      · right; left
        rw [hsan, hb2]
        rfl
      · right; right
        refine ⟨basenameChars (normalizeChars p.toList), hb0, hnos, ?_⟩
        rw [hsan, joinChars_tmp_bare _ hb0 hnos hb1 hb2]

/-- A successful lookup of both the opened and the statted file fully
determines `readFileChunk`'s output. -/
theorem readFileChunk_ok (fs : Fs) (cwd p : String) (off len : Nat)
    (content statContent : List UInt8)
    (hopen : fs (sanitizeFilePath p) = some content)
    (hstat : fs (resolvePath cwd p) = some statContent) :
    readFileChunk fs cwd p off len =
      .ok { chunk := (content.drop off).take len, offset := off,
            length := ((content.drop off).take len).length,
            totalSize := statContent.length,
            hasMore := decide (off + ((content.drop off).take len).length <
              statContent.length) } := by
  simp only [readFileChunk]
  rw [hopen, hstat]

/-! ## Claim C1 -/

/-- Claim C1: the path `readFileChunk` opens is obtained by normalizing
the input, discarding every directory component and re-rooting the bare
filename under the temp directory; consequently — on a filesystem in
which `/` and `/tmp` are directories, not regular files — every
successfully opened file lies strictly inside `/tmp`, and a file
missing at the re-rooted location yields `FILE_OPERATION_ERROR`. -/
theorem readFileChunk_confined_to_tmpdir (fs : Fs) (cwd p : String)
    (off len : Nat) (hroot : fs "/" = none) (htmp : fs "/tmp" = none) :
    (sanitizeFilePath p = pathJoin tmpdir (pathBasename (pathNormalize p))) ∧
    (∀ bytes, fs (sanitizeFilePath p) = some bytes →
      ∃ b : List Char, b ≠ [] ∧ '/' ∉ b ∧
        sanitizeFilePath p = String.mk ('/' :: 't' :: 'm' :: 'p' :: '/' :: b)) ∧
    (fs (sanitizeFilePath p) = none →
      errCode (readFileChunk fs cwd p off len) = some .FILE_OPERATION_ERROR) := by
  refine ⟨rfl, ?_, ?_⟩
  · intro bytes hopen
    rcases sanitizeFilePath_cases p with hcase | hcase | hcase
    · rw [hcase] at hopen
      rw [htmp] at hopen
      cases hopen
    · rw [hcase] at hopen
      rw [hroot] at hopen
      cases hopen
    · exact hcase
  · intro hnone
    simp only [readFileChunk]
    rw [hnone]
    rfl

/-- Witness for C1, on the spec's own example: `../../etc/passwd`
sanitizes to `/tmp/passwd`, and when that file does not exist the call
fails with `FILE_OPERATION_ERROR`. -/
theorem readFileChunk_confined_to_tmpdir_witness :
    ((fun _ => none : Fs) "/" = none ∧ (fun _ => none : Fs) "/tmp" = none) ∧
    (sanitizeFilePath "../../etc/passwd" = "/tmp/passwd" ∧
      errCode (readFileChunk (fun _ => none) "/a/b" "../../etc/passwd" 0 50000) =
        some .FILE_OPERATION_ERROR) :=
  ⟨⟨rfl, rfl⟩,
    ⟨rfl,
      (readFileChunk_confined_to_tmpdir (fun _ => none) "/a/b" "../../etc/passwd"
        0 50000 rfl rfl).2.2 rfl⟩⟩

/-! ## Claim C7 -/

/-- A filesystem exhibiting the stat/open mismatch: the sanitized
`/tmp/passwd` holds 5 bytes, while `/etc/passwd` (which the raw
traversal path resolves to from cwd `/a/b`) holds 9 bytes. -/
def fsTraversal : Fs := fun q =>
  if q = "/tmp/passwd" then some (utf8Bytes "12345")
  else if q = "/etc/passwd" then some (utf8Bytes "123456789")
  else none

/-- Claim C7 fails on the code: `readFileChunk` opens and reads the
sanitized `/tmp/passwd` (5 bytes) but stats the raw caller path —
`fs.stat(filePath)` resolves `../../etc/passwd` to `/etc/passwd`
(9 bytes) — so the reported `totalSize` is 9, not the sanitized file's
current size 5, and `hasMore` is `true` even though the read consumed
the whole sanitized file. -/
theorem readFileChunk_stats_raw_path_bug :
    sanitizeFilePath "../../etc/passwd" = "/tmp/passwd" ∧
    resolvePath "/a/b" "../../etc/passwd" = "/etc/passwd" ∧
    (fsTraversal "/tmp/passwd").map List.length = some 5 ∧
    readFileChunk fsTraversal "/a/b" "../../etc/passwd" 0 50000 =
      .ok { chunk := utf8Bytes "12345", offset := 0, length := 5,
            totalSize := 9, hasMore := true } :=
  ⟨rfl, rfl, rfl, rfl⟩

/-! ## Chunk arithmetic and the round-trip (C6) -/

/-- The number of chunk reads at size `C` covering `[0, N)`:
`⌈N / C⌉`. -/
def numChunks (N C : Nat) : Nat := (N + C - 1) / C

/-- `N` bytes fit in `⌈N / C⌉` chunks of size `C`. -/
theorem le_numChunks_mul (N C : Nat) (hC : 0 < C) : N ≤ numChunks N C * C := by
  unfold numChunks
  have h2 : N + C - 1 < ((N + C - 1) / C + 1) * C :=
    (Nat.div_lt_iff_lt_mul hC).mp (Nat.lt_succ_self _)
  rw [Nat.add_mul, one_mul] at h2
  generalize (N + C - 1) / C * C = M at *
  omega

/-- A positive byte count needs at least one chunk. -/
theorem numChunks_pos (N C : Nat) (hC : 0 < C) (hN : 0 < N) :
    0 < numChunks N C :=
  Nat.div_pos (by omega) hC

/-- The final chunk starts strictly below `N`. -/
theorem lastChunk_mul_lt (N C : Nat) (hC : 0 < C) (hN : 0 < N) :
    (numChunks N C - 1) * C < N := by
  by_contra hcon
  push_neg at hcon
  have hq := numChunks_pos N C hC hN
  unfold numChunks at *
  set q := (N + C - 1) / C with hqdef
  have hqsub : (q - 1) * C + C = q * C := by
    have hsucc : q - 1 + 1 = q := Nat.succ_pred_eq_of_pos hq
    calc (q - 1) * C + C = (q - 1 + 1) * C := by rw [Nat.add_mul, one_mul]
    _ = q * C := by rw [hsucc]
  have hlt : N + C - 1 < q * C := by
    generalize hA : (q - 1) * C = A at hcon hqsub
    generalize hB : q * C = B at hqsub ⊢
    omega
  have hdiv := (Nat.div_lt_iff_lt_mul hC).mpr hlt
  omega

/-- Reading `⌈length / C⌉` consecutive `C`-sized windows and
concatenating them reconstructs the list. -/
theorem chunks_cat (C : Nat) :
    ∀ (n : Nat) (l : List α), l.length ≤ n * C →
      catLists ((List.range n).map (fun k => (l.drop (k * C)).take C)) = l := by
  intro n
  induction n with
  | zero =>
    intro l h
    have hlen : l.length = 0 := by simpa using h
    have hl : l = [] := List.eq_nil_of_length_eq_zero hlen
    simp [hl, catLists]
  | succ n ih =>
    intro l h
    rw [List.range_succ_eq_map]
    simp only [List.map_cons, List.map_map]
    rw [catLists]
    have h0 : (l.drop (0 * C)).take C = l.take C := by simp
    rw [h0]
    have hcomp : ((fun k => (l.drop (k * C)).take C) ∘ Nat.succ) =
        (fun k => ((l.drop C).drop (k * C)).take C) := by
      funext k
      simp only [Function.comp_apply]
      rw [List.drop_drop]
      have harith : Nat.succ k * C = C + k * C := by
        rw [Nat.succ_mul]; omega
      rw [harith]
    rw [hcomp]
    have hbound : (l.drop C).length ≤ n * C := by
      rw [List.length_drop]
      have hmul : (n + 1) * C = n * C + C := by rw [Nat.add_mul, one_mul]
      rw [hmul] at h
      generalize n * C = M at h ⊢
      omega
    rw [ih (l.drop C) hbound]
    exact List.take_append_drop C l

/-- Replacing `:` and `.` by `-` introduces no separator. -/
theorem sanitizeTs_no_slash (nowIso : String) (h : '/' ∉ nowIso.toList) :
    '/' ∉ (sanitizeTs nowIso).toList := by
  intro hmem
  have hform : (sanitizeTs nowIso).toList =
      nowIso.toList.map (fun c => if c = ':' ∨ c = '.' then '-' else c) := rfl
  rw [hform] at hmem
  obtain ⟨c, hc, hfc⟩ := List.mem_map.mp hmem
  by_cases hcond : c = ':' ∨ c = '.'
  · rw [if_pos hcond] at hfc
    exact absurd hfc (by decide)
  · rw [if_neg hcond] at hfc
    exact h (hfc ▸ hc)

/-- The spill file name `mongodb-result-<ts>.json` is a bare file name:
non-empty, separator-free (given a separator-free timestamp) and not a
dot segment. -/
theorem fileName_props (ts : String) (hts : '/' ∉ ts.toList) :
    ("mongodb-result-" ++ ts ++ ".json").toList ≠ [] ∧
    '/' ∉ ("mongodb-result-" ++ ts ++ ".json").toList ∧
    ("mongodb-result-" ++ ts ++ ".json").toList ≠ ['.'] ∧
    ("mongodb-result-" ++ ts ++ ".json").toList ≠ ['.', '.'] := by
  have hsplit : ("mongodb-result-" ++ ts ++ ".json").toList =
      "mongodb-result-".toList ++ ts.toList ++ ".json".toList := by
    simp [String.toList]
  have hlen : ("mongodb-result-" ++ ts ++ ".json").toList.length =
      15 + ts.toList.length + 5 := by
    rw [hsplit, List.length_append, List.length_append]
    have e1 : "mongodb-result-".toList.length = 15 := rfl
    have e2 : ".json".toList.length = 5 := rfl
    omega
  refine ⟨?_, ?_, ?_, ?_⟩
  · intro h
    rw [h] at hlen
    simp at hlen
  · rw [hsplit]
    intro hm
    rcases List.mem_append.mp hm with hm1 | hm2
    · rcases List.mem_append.mp hm1 with hma | hmb
      · exact absurd hma (by decide)
      · exact hts hmb
    · exact absurd hm2 (by decide)
  · intro h
    rw [h] at hlen
    simp at hlen
  · intro h
    rw [h] at hlen
    simp at hlen

/-- The spill record's `filePath` is `/tmp/<bare file name>`. -/
theorem writeResult_filePath (fs : Fs) (nowIso : String) (data : JsValue)
    (hiso : '/' ∉ nowIso.toList) :
    ∃ b : List Char, b ≠ [] ∧ '/' ∉ b ∧ b ≠ ['.'] ∧ b ≠ ['.', '.'] ∧
      (writeResultToTempFile fs nowIso data).1.filePath =
        String.mk ('/' :: 't' :: 'm' :: 'p' :: '/' :: b) := by
  obtain ⟨hne, hns, hd1, hd2⟩ :=
    fileName_props (sanitizeTs nowIso) (sanitizeTs_no_slash nowIso hiso)
  refine ⟨("mongodb-result-" ++ sanitizeTs nowIso ++ ".json").toList,
    hne, hns, hd1, hd2, ?_⟩
  show pathJoin tmpdir ("mongodb-result-" ++ sanitizeTs nowIso ++ ".json") = _
  have hpj : pathJoin tmpdir ("mongodb-result-" ++ sanitizeTs nowIso ++ ".json") =
      String.mk (joinChars ['/', 't', 'm', 'p']
        ("mongodb-result-" ++ sanitizeTs nowIso ++ ".json").toList) := rfl
  rw [hpj, joinChars_tmp_bare _ hne hns hd1 hd2]

/-- The sanitizer and the raw-path stat resolution both fix a
`/tmp/<bare>` path. -/
theorem sanitize_resolve_fix_bare (cwd : String) (b : List Char) (hb : b ≠ [])
    (hs : '/' ∉ b) (h1 : b ≠ ['.']) (h2 : b ≠ ['.', '.']) :
    sanitizeFilePath (String.mk ('/' :: 't' :: 'm' :: 'p' :: '/' :: b)) =
      String.mk ('/' :: 't' :: 'm' :: 'p' :: '/' :: b) ∧
    resolvePath cwd (String.mk ('/' :: 't' :: 'm' :: 'p' :: '/' :: b)) =
      String.mk ('/' :: 't' :: 'm' :: 'p' :: '/' :: b) := by
  constructor
  · have hu : sanitizeFilePath (String.mk ('/' :: 't' :: 'm' :: 'p' :: '/' :: b)) =
        String.mk (joinChars ['/', 't', 'm', 'p'] (basenameChars
          (normalizeChars ('/' :: 't' :: 'm' :: 'p' :: '/' :: b)))) := rfl
    rw [hu, normalizeChars_tmp_bare b hb hs h1 h2, basenameChars_tmp_bare b hb hs,
      joinChars_tmp_bare b hb hs h1 h2]
  · have hu : resolvePath cwd (String.mk ('/' :: 't' :: 'm' :: 'p' :: '/' :: b)) =
        if startsSlash ('/' :: 't' :: 'm' :: 'p' :: '/' :: b) then
          String.mk (normalizeChars ('/' :: 't' :: 'm' :: 'p' :: '/' :: b))
        else pathNormalize (cwd ++ "/" ++ String.mk ('/' :: 't' :: 'm' :: 'p' :: '/' :: b)) := rfl
    rw [hu, if_pos (by rfl), normalizeChars_tmp_bare b hb hs h1 h2]

/-! ## Claim C6 -/

/-- Claim C6, amended: spill a value with `writeResultToTempFile`,
then read the resulting file back with `readFileChunk` at offsets
`0, C, 2C, ...` covering `[0, N)` (`N` = the size of the written
serialization, `numChunks N C` reads).  Every read succeeds and
returns the corresponding byte window of the written content, the
concatenation of the **byte windows** — `buffer.subarray(0, bytesRead)`
before its lossy `utf8Decode` to a JS string — reconstructs the
written serialized content byte-for-byte, and the final chunk reports
`hasMore = false`.  (The caller-visible JS strings decode each window
separately, so their concatenation reconstructs the content only when
no window boundary splits a multi-byte UTF-8 character.) -/
theorem spill_read_roundtrip (fs : Fs) (cwd nowIso : String) (data : JsValue)
    (C : Nat) (hC : 0 < C) (hiso : '/' ∉ nowIso.toList) :
    (writeResultToTempFile fs nowIso data).1.size =
      (utf8Bytes (stringifyPretty data)).length ∧
    (∀ k, k < numChunks (utf8Bytes (stringifyPretty data)).length C →
      readFileChunk (writeResultToTempFile fs nowIso data).2 cwd
          ((writeResultToTempFile fs nowIso data).1.filePath) (k * C) C =
        .ok { chunk := ((utf8Bytes (stringifyPretty data)).drop (k * C)).take C,
              offset := k * C,
              length := (((utf8Bytes (stringifyPretty data)).drop (k * C)).take C).length,
              totalSize := (utf8Bytes (stringifyPretty data)).length,
              hasMore := decide (k * C +
                (((utf8Bytes (stringifyPretty data)).drop (k * C)).take C).length <
                (utf8Bytes (stringifyPretty data)).length) }) ∧
    catLists ((List.range (numChunks (utf8Bytes (stringifyPretty data)).length C)).map
        (fun k => ((utf8Bytes (stringifyPretty data)).drop (k * C)).take C)) =
      utf8Bytes (stringifyPretty data) ∧
    (0 < (utf8Bytes (stringifyPretty data)).length →
      0 < numChunks (utf8Bytes (stringifyPretty data)).length C ∧
      ∃ r : ChunkResult,
        readFileChunk (writeResultToTempFile fs nowIso data).2 cwd
            ((writeResultToTempFile fs nowIso data).1.filePath)
            ((numChunks (utf8Bytes (stringifyPretty data)).length C - 1) * C) C =
          .ok r ∧ r.hasMore = false) := by
  obtain ⟨b, hb, hs, h1, h2, hpath⟩ := writeResult_filePath fs nowIso data hiso
  obtain ⟨hsani0, hres0⟩ := sanitize_resolve_fix_bare cwd b hb hs h1 h2
  have hsani : sanitizeFilePath ((writeResultToTempFile fs nowIso data).1.filePath) =
      (writeResultToTempFile fs nowIso data).1.filePath := by
    rw [hpath]; exact hsani0
  have hres : resolvePath cwd ((writeResultToTempFile fs nowIso data).1.filePath) =
      (writeResultToTempFile fs nowIso data).1.filePath := by
    rw [hpath]; exact hres0
  have hlookup : (writeResultToTempFile fs nowIso data).2
      ((writeResultToTempFile fs nowIso data).1.filePath) =
      some (utf8Bytes (stringifyPretty data)) := by
    simp [writeResultToTempFile]
  have hopen : (writeResultToTempFile fs nowIso data).2
      (sanitizeFilePath ((writeResultToTempFile fs nowIso data).1.filePath)) =
      some (utf8Bytes (stringifyPretty data)) := by
    rw [hsani]; exact hlookup
  have hstat : (writeResultToTempFile fs nowIso data).2
      (resolvePath cwd ((writeResultToTempFile fs nowIso data).1.filePath)) =
      some (utf8Bytes (stringifyPretty data)) := by
    rw [hres]; exact hlookup
  refine ⟨rfl, ?_, ?_, ?_⟩
  · intro k _
    exact readFileChunk_ok _ cwd _ (k * C) C _ _ hopen hstat
  · exact chunks_cat C _ _
      (le_numChunks_mul (utf8Bytes (stringifyPretty data)).length C hC)
  · intro hN
    refine ⟨numChunks_pos _ C hC hN, ?_⟩
    refine ⟨_, readFileChunk_ok _ cwd _ _ C _ _ hopen hstat, ?_⟩
    show decide _ = false
    have hlast := lastChunk_mul_lt (utf8Bytes (stringifyPretty data)).length C hC hN
    have hle := le_numChunks_mul (utf8Bytes (stringifyPretty data)).length C hC
    have hq := numChunks_pos (utf8Bytes (stringifyPretty data)).length C hC hN
    have hlen2 : (((utf8Bytes (stringifyPretty data)).drop
        ((numChunks (utf8Bytes (stringifyPretty data)).length C - 1) * C)).take C).length =
        min C ((utf8Bytes (stringifyPretty data)).length -
          (numChunks (utf8Bytes (stringifyPretty data)).length C - 1) * C) := by
      rw [List.length_take, List.length_drop]
    rw [hlen2]
    have hqsub : (numChunks (utf8Bytes (stringifyPretty data)).length C - 1) * C + C =
        numChunks (utf8Bytes (stringifyPretty data)).length C * C := by
      have hsucc : numChunks (utf8Bytes (stringifyPretty data)).length C - 1 + 1 =
          numChunks (utf8Bytes (stringifyPretty data)).length C :=
        Nat.succ_pred_eq_of_pos hq
      calc (numChunks (utf8Bytes (stringifyPretty data)).length C - 1) * C + C
          = (numChunks (utf8Bytes (stringifyPretty data)).length C - 1 + 1) * C := by
            rw [Nat.add_mul, one_mul]
      _ = _ := by rw [hsucc]
    have hmin : min C ((utf8Bytes (stringifyPretty data)).length -
        (numChunks (utf8Bytes (stringifyPretty data)).length C - 1) * C) =
        (utf8Bytes (stringifyPretty data)).length -
          (numChunks (utf8Bytes (stringifyPretty data)).length C - 1) * C := by
      apply min_eq_right
      generalize hA : (numChunks (utf8Bytes (stringifyPretty data)).length C - 1) * C = A
        at hlast hqsub
      generalize hB : numChunks (utf8Bytes (stringifyPretty data)).length C * C = B
        at hqsub hle
      omega
    rw [hmin]
    simp only [decide_eq_false_iff_not]
    generalize hA : (numChunks (utf8Bytes (stringifyPretty data)).length C - 1) * C = A
      at hlast ⊢
    omega

/-- Witness for C6: spilling the string value `"hello"` (whose
pretty-printed serialization `"hello"` occupies 7 bytes) and reading it
back in 4-byte chunks reconstructs the content, and the reads exist. -/
theorem spill_read_roundtrip_witness :
    ((0 : Nat) < 4 ∧ '/' ∉ ("2025-01-01T00:00:00.000Z" : String).toList) ∧
    catLists ((List.range (numChunks
        (utf8Bytes (stringifyPretty (.str "hello"))).length 4)).map
        (fun k => ((utf8Bytes (stringifyPretty (.str "hello"))).drop (k * 4)).take 4)) =
      utf8Bytes (stringifyPretty (.str "hello")) :=
  ⟨⟨by decide, by decide⟩,
    (spill_read_roundtrip (fun _ => none) "/a" "2025-01-01T00:00:00.000Z"
      (.str "hello") 4 (by decide) (by decide)).2.2.1⟩

/-- Counterexample to C6 as stated: the chunks `readFileChunk` returns
to the caller are the byte windows decoded to JS strings
(`buffer.subarray(0, bytesRead).toString('utf8')`).  Spilling the value
`"é"` — serialized as `"é"`, four UTF-8 bytes `22 C3 A9 22` — and
reading the file back with chunk size 2 splits the two-byte character
across the windows: both reads succeed, but each window decodes with a
U+FFFD replacement character, and the concatenation of the returned
chunks differs from the written serialized content, both as a string
and byte-for-byte. -/
theorem spill_read_roundtrip_counterexample :
    numChunks (utf8Bytes (stringifyPretty (.str "é"))).length 2 = 2 ∧
    readFileChunk
        (writeResultToTempFile (fun _ => none) "2025-01-01T00:00:00.000Z" (.str "é")).2
        "/a"
        ((writeResultToTempFile (fun _ => none) "2025-01-01T00:00:00.000Z" (.str "é")).1.filePath)
        0 2 =
      .ok { chunk := [0x22, 0xC3], offset := 0, length := 2, totalSize := 4,
            hasMore := true } ∧
    readFileChunk
        (writeResultToTempFile (fun _ => none) "2025-01-01T00:00:00.000Z" (.str "é")).2
        "/a"
        ((writeResultToTempFile (fun _ => none) "2025-01-01T00:00:00.000Z" (.str "é")).1.filePath)
        2 2 =
      .ok { chunk := [0xA9, 0x22], offset := 2, length := 2, totalSize := 4,
            hasMore := false } ∧
    utf8Decode [0x22, 0xC3] ++ utf8Decode [0xA9, 0x22] = "\"��\"" ∧
    ("\"��\"" : String) ≠ stringifyPretty (.str "é") ∧
    utf8Bytes "\"��\"" ≠ utf8Bytes (stringifyPretty (.str "é")) :=
  ⟨rfl, rfl, rfl, rfl, by decide, by decide⟩
